import Mathlib

/-!
Verification of the `Limiter` concurrency utility from
`src/extensions/codestory/src/server/applyEdits.ts` (class `Limiter<T>`).

The TypeScript class is embedded shallowly as a state machine:

* the mutable fields `_size`, `_isDisposed`, `runningPromises`,
  `maxDegreeOfParalellism`, `outstandingPromises` become fields of
  `Limiter.State` (numbers as `Int`, since TS numbers may go negative);
* pending tasks are identified by the `Nat` at which they were submitted
  (`nextId` increments on every `queue` call), so submission order is id
  order;
* the future returned by `queue` is tracked in `futures : Nat → Future`:
  `promise.then(iLimitedTask.c, iLimitedTask.e)` settles it with the task's
  own outcome when the task completes;
* `consume` is the synchronous drain loop, `consumed` the completion
  callback installed by `promise.then(() => this.consumed(), ...)`;
* task completion is an external event (`Event.complete tid o`), valid when
  `tid` is in `runningTasks` (the set of started, not-yet-finished tasks);
* `queue` and `clear` throw on a disposed limiter *before* mutating any
  state, so they are modelled as `Except String`-returning operations, and
  the throwing case leaves the state unchanged in the event semantics;
* `startLog` records the ids of tasks in the order they were started
  (instrumentation only: no operation reads it);
* `drainedFired` records whether `_onDrained.fire()` ever ran, and
  `onDrainedDisposed` whether `_onDrained.dispose()` ran.
-/

namespace Limiter

/-- Outcome of a task's own promise: it fulfills with a value or rejects
with an error (both abstracted to `Nat`). -/
inductive Outcome where
  | success (v : Nat) : Outcome
  | failure (e : Nat) : Outcome
deriving DecidableEq, Repr

/-- Status of the future returned by `queue` for one submitted task. -/
inductive Future where
  | pending : Future
  | resolved (v : Nat) : Future
  | rejected (e : Nat) : Future
deriving DecidableEq, Repr

/-- The future state a completed task's outcome settles to: `queue`'s
promise runs `promise.then(iLimitedTask.c, iLimitedTask.e)`. -/
def Outcome.settle : Outcome → Future
  | .success v => .resolved v
  | .failure e => .rejected e

/-- State of one `Limiter` instance, mirroring the class fields of
`Limiter<T>` plus bookkeeping for started tasks and returned futures. -/
structure State where
  /-- `maxDegreeOfParalellism`, fixed at construction. -/
  maxDegree : Int
  /-- `this._size`. -/
  size : Int
  /-- `this._isDisposed`. -/
  isDisposed : Bool
  /-- `this.runningPromises`. -/
  running : Int
  /-- `this.outstandingPromises`, as the ids of the queued tasks in order. -/
  queue : List Nat
  /-- Ids of tasks whose factory has been invoked and whose promise has not
  settled yet. -/
  runningTasks : List Nat
  /-- Ids of started tasks, in the order `consume` started them. -/
  startLog : List Nat
  /-- The future `queue` returned for each task id. -/
  futures : Nat → Future
  /-- Id to assign to the next submission. -/
  nextId : Nat
  /-- Whether `this._onDrained.fire()` ever executed. -/
  drainedFired : Bool
  /-- Whether `this._onDrained.dispose()` executed. -/
  onDrainedDisposed : Bool

/-- The constructor: `outstandingPromises = []`, `runningPromises = 0`,
`_size = 0`, `_isDisposed = false`, a fresh (unfired) `_onDrained`. -/
def init (maxDegree : Int) : State :=
  { maxDegree := maxDegree
    size := 0
    isDisposed := false
    running := 0
    queue := []
    runningTasks := []
    startLog := []
    futures := fun _ => .pending
    nextId := 0
    drainedFired := false
    onDrainedDisposed := false }

/-- The body of the `while` loop of `private consume()`, with an explicit
structural bound: each iteration shifts one task off the queue, so the
queue length bounds the number of iterations and the bound is threaded as
fuel to keep the recursion structural (and hence computable by reduction).
`consume` below always supplies enough fuel, so the loop semantics is
exactly that of the source. -/
def consumeGo : Nat → State → State
  | 0, s => s
  | fuel + 1, s =>
    match s.queue with
    | [] => s
    | tid :: rest =>
      if s.running < s.maxDegree then
        consumeGo fuel { s with
          queue := rest
          running := s.running + 1
          runningTasks := s.runningTasks ++ [tid]
          startLog := s.startLog ++ [tid] }
      else s

/-- `private consume()`: while the queue is non-empty and
`runningPromises < maxDegreeOfParalellism`, shift the head task, increment
`runningPromises` and invoke its factory (recorded in `runningTasks` and
`startLog`). -/
def consume (s : State) : State :=
  consumeGo s.queue.length s

/-- `private consumed()`: return immediately if disposed; otherwise
decrement `runningPromises` and `_size` (the `_onDrained.fire()` call on
`_size` reaching `0` is commented out in the source), then run `consume`
if the queue is non-empty. -/
def consumed (s : State) : State :=
  if s.isDisposed then s
  else
    let s' := { s with running := s.running - 1, size := s.size - 1 }
    if s'.queue.length > 0 then consume s' else s'

/-- `queue(factory)`: throw `'Object has been disposed'` if disposed;
otherwise increment `_size`, push the task, run `consume`, and return the
new promise (here: the fresh task id identifying it). -/
def queueOp (s : State) : Except String (State × Nat) :=
  if s.isDisposed then .error "Object has been disposed"
  else
    let tid := s.nextId
    .ok
      (consume { s with
          size := s.size + 1
          queue := s.queue ++ [tid]
          nextId := tid + 1 },
        tid)

/-- The settlement of a started task's promise with outcome `o`: the
callbacks installed by `promise.then(iLimitedTask.c, iLimitedTask.e)`
settle the returned future, and `promise.then(() => this.consumed(), ...)`
runs `consumed`. -/
def complete (s : State) (tid : Nat) (o : Outcome) : State :=
  if tid ∈ s.runningTasks then
    consumed { s with
      runningTasks := s.runningTasks.erase tid
      futures := fun t => if t = tid then o.settle else s.futures t }
  else s

/-- `clear()`: throw `'Object has been disposed'` if disposed; otherwise
truncate `outstandingPromises` to length `0` and set
`_size = runningPromises`. -/
def clearOp (s : State) : Except String State :=
  if s.isDisposed then .error "Object has been disposed"
  else .ok { s with queue := [], size := s.running }

/-- `dispose()`: set `_isDisposed`, truncate `outstandingPromises`, zero
`_size`, and dispose `_onDrained`. -/
def dispose (s : State) : State :=
  { s with
    isDisposed := true
    queue := []
    size := 0
    onDrainedDisposed := true }

/-- The externally observable events driving a `Limiter`. -/
inductive Event where
  | submit : Event
  | complete (tid : Nat) (o : Outcome) : Event
  | clear : Event
  | dispose : Event
deriving DecidableEq, Repr

/-- One event's effect on the state.  A `queue`/`clear` call on a disposed
limiter throws before mutating anything, so its state effect is the
identity; a `complete` for a task that is not running cannot occur and is
the identity. -/
def step (s : State) : Event → State
  | .submit =>
    match queueOp s with
    | .ok (s', _) => s'
    | .error _ => s
  | .complete tid o => complete s tid o
  | .clear =>
    match clearOp s with
    | .ok s' => s'
    | .error _ => s
  | .dispose => dispose s

/-- Run a sequence of events from a state. -/
def run (s : State) (es : List Event) : State :=
  es.foldl step s

/-! ### Unfolding equations for `consume` -/

theorem consume_nil (s : State) (h : s.queue = []) : consume s = s := by
  simp [consume, consumeGo, h]

theorem consume_cons_lt (s : State) (tid : Nat) (rest : List Nat)
    (h : s.queue = tid :: rest) (hr : s.running < s.maxDegree) :
    consume s = consume { s with
      queue := rest
      running := s.running + 1
      runningTasks := s.runningTasks ++ [tid]
      startLog := s.startLog ++ [tid] } := by
  simp [consume, consumeGo, h, hr]

theorem consume_cons_ge (s : State) (tid : Nat) (rest : List Nat)
    (h : s.queue = tid :: rest) (hr : ¬ s.running < s.maxDegree) :
    consume s = s := by
  simp [consume, consumeGo, h, hr]

/-- Full characterization of the drain loop `consume`: it starts some
prefix of length `k` of the queue (appending it to `runningTasks` and
`startLog` and adding `k` to `runningPromises`), touches no other field,
stops only when the queue is empty or the running count has reached the
ceiling, and had capacity for each task it started. -/
theorem consume_spec (s : State) :
    ∃ k : Nat,
      (consume s).queue = s.queue.drop k ∧
      (consume s).running = s.running + (k : Int) ∧
      (consume s).runningTasks = s.runningTasks ++ s.queue.take k ∧
      (consume s).startLog = s.startLog ++ s.queue.take k ∧
      (consume s).size = s.size ∧
      (consume s).maxDegree = s.maxDegree ∧
      (consume s).isDisposed = s.isDisposed ∧
      (consume s).futures = s.futures ∧
      (consume s).nextId = s.nextId ∧
      (consume s).drainedFired = s.drainedFired ∧
      (consume s).onDrainedDisposed = s.onDrainedDisposed ∧
      (s.queue.drop k = [] ∨ ¬ (s.running + (k : Int) < s.maxDegree)) ∧
      (∀ j : Nat, j < k → s.running + (j : Int) < s.maxDegree) ∧
      k ≤ s.queue.length := by
  generalize hn : s.queue.length = n
  induction n using Nat.strong_induction_on generalizing s with
  | _ n ih =>
    rcases hq : s.queue with _ | ⟨tid, rest⟩
    · refine ⟨0, ?_⟩
      rw [consume_nil s hq]
      simp [hq]
    · by_cases hr : s.running < s.maxDegree
      · rw [consume_cons_lt s tid rest hq hr]
        have key := ih rest.length (by rw [hq] at hn; simp at hn; omega) { s with
            queue := rest
            running := s.running + 1
            runningTasks := s.runningTasks ++ [tid]
            startLog := s.startLog ++ [tid] } rfl
        dsimp only at key
        obtain ⟨k, h1, h2, h3, h4, h5, h6, h7, h8, h9, h10, h11, h12, h13, h14⟩ := key
        refine ⟨k + 1, ?_, ?_, ?_, ?_, h5, h6, h7, h8, h9, h10, h11, ?_, ?_, ?_⟩
        · rw [h1]; rfl
        · rw [h2]; push_cast; ring
        · rw [h3, List.take_succ_cons, List.append_assoc]
          rfl
        · rw [h4, List.take_succ_cons, List.append_assoc]
          rfl
        · rw [List.drop_succ_cons]
          rcases h12 with h12 | h12
          · exact Or.inl h12
          · refine Or.inr ?_
            push_cast
            push_cast at h12
            omega
        · intro j hj
          rcases j with _ | j'
          · simpa using hr
          · have := h13 j' (by omega)
            push_cast at this ⊢
            omega
        · have : (s.queue).length = rest.length + 1 := by rw [hq]; rfl
          omega
      · refine ⟨0, ?_⟩
        rw [consume_cons_ge s tid rest hq hr]
        simp [hq, hr]

/-! ### Field-preservation corollaries of `consume_spec` -/

theorem consume_maxDegree (s : State) : (consume s).maxDegree = s.maxDegree := by
  obtain ⟨k, _, _, _, _, _, h6, _⟩ := consume_spec s
  exact h6

theorem consume_isDisposed (s : State) : (consume s).isDisposed = s.isDisposed := by
  obtain ⟨k, _, _, _, _, _, _, h7, _⟩ := consume_spec s
  exact h7

theorem consume_futures (s : State) : (consume s).futures = s.futures := by
  obtain ⟨k, _, _, _, _, _, _, _, h8, _⟩ := consume_spec s
  exact h8

theorem consume_size (s : State) : (consume s).size = s.size := by
  obtain ⟨k, _, _, _, _, h5, _⟩ := consume_spec s
  exact h5

theorem consume_nextId (s : State) : (consume s).nextId = s.nextId := by
  obtain ⟨k, _, _, _, _, _, _, _, _, h9, _⟩ := consume_spec s
  exact h9

theorem consume_drainedFired (s : State) :
    (consume s).drainedFired = s.drainedFired := by
  obtain ⟨k, _, _, _, _, _, _, _, _, _, h10, _⟩ := consume_spec s
  exact h10

theorem consume_onDrainedDisposed (s : State) :
    (consume s).onDrainedDisposed = s.onDrainedDisposed := by
  obtain ⟨k, _, _, _, _, _, _, _, _, _, _, h11, _⟩ := consume_spec s
  exact h11

/-- `consume` moves tasks from the queue to the start log without changing
the concatenation `startLog ++ queue`. -/
theorem consume_startLog_append_queue (s : State) :
    (consume s).startLog ++ (consume s).queue = s.startLog ++ s.queue := by
  obtain ⟨k, h1, _, _, h4, _⟩ := consume_spec s
  rw [h1, h4, List.append_assoc, List.take_append_drop]

/-! ### The reachability invariant -/

/-- The master state invariant, preserved by every event:
* while not disposed, `runningPromises` counts exactly the started,
  unfinished tasks and `_size` counts queued plus running tasks;
* with a nonnegative ceiling, `runningPromises` never exceeds it;
* the started tasks followed by the still-queued tasks are strictly
  ordered by submission id, and all ids are below `nextId`;
* with a nonpositive ceiling nothing ever starts and every future is
  still pending;
* `_onDrained` never fires. -/
def Inv (s : State) : Prop :=
  (s.isDisposed = false →
    s.running = (s.runningTasks.length : Int) ∧
    s.size = (s.queue.length : Int) + s.running) ∧
  (0 ≤ s.maxDegree → s.running ≤ s.maxDegree) ∧
  List.Sorted (· < ·) (s.startLog ++ s.queue) ∧
  (∀ i ∈ s.startLog ++ s.queue, i < s.nextId) ∧
  (s.maxDegree ≤ 0 →
    s.running = 0 ∧ s.runningTasks = [] ∧ s.startLog = [] ∧
    s.futures = fun _ => Future.pending) ∧
  s.drainedFired = false

theorem Inv_init (m : Int) : Inv (init m) := by
  refine ⟨?_, ?_, ?_, ?_, ?_, rfl⟩ <;> simp [init]

theorem Inv_consume (s : State) (h : Inv s) : Inv (consume s) := by
  obtain ⟨hc1, hc2, hc3, hc4, hc5, hc6⟩ := h
  obtain ⟨k, h1, h2, h3, h4, h5, h6, h7, h8, h9, h10, h11, h12, h13, h14⟩ :=
    consume_spec s
  refine ⟨?_, ?_, ?_, ?_, ?_, ?_⟩
  · intro hd
    rw [h7] at hd
    obtain ⟨hr, hs⟩ := hc1 hd
    constructor
    · rw [h2, h3, List.length_append, List.length_take,
        Nat.min_eq_left h14]
      push_cast
      omega
    · rw [h5, h1, h2, List.length_drop, hs]
      push_cast [h14]
      omega
  · intro hm
    rw [h6] at hm
    rw [h2, h6]
    rcases Nat.eq_zero_or_pos k with hk | hk
    · subst hk
      simpa using hc2 hm
    · have := h13 (k - 1) (by omega)
      omega
  · rw [h1, h4, List.append_assoc, List.take_append_drop]
    exact hc3
  · rw [h1, h4, h9, List.append_assoc, List.take_append_drop]
    exact hc4
  · intro hm
    rw [h6] at hm
    obtain ⟨hr0, hrt, hsl, hf⟩ := hc5 hm
    have hk0 : k = 0 := by
      by_contra hk
      have := h13 0 (by omega)
      rw [hr0] at this
      simp at this
      omega
    subst hk0
    refine ⟨?_, ?_, ?_, ?_⟩
    · rw [h2, hr0]; simp
    · rw [h3, hrt]; simp
    · rw [h4, hsl]; simp
    · rw [h8, hf]
  · rw [h10]; exact hc6

/-! ### Reductions of `step` per event -/

theorem step_submit_disposed (s : State) (hd : s.isDisposed = true) :
    step s .submit = s := by
  simp [step, queueOp, hd]

theorem step_submit_live (s : State) (hd : s.isDisposed = false) :
    step s .submit = consume { s with
      size := s.size + 1
      queue := s.queue ++ [s.nextId]
      nextId := s.nextId + 1 } := by
  simp [step, queueOp, hd]

theorem step_clear_disposed (s : State) (hd : s.isDisposed = true) :
    step s .clear = s := by
  simp [step, clearOp, hd]

theorem step_clear_live (s : State) (hd : s.isDisposed = false) :
    step s .clear = { s with queue := [], size := s.running } := by
  simp [step, clearOp, hd]

theorem step_dispose (s : State) : step s .dispose = dispose s := rfl

theorem step_complete_not_mem (s : State) (tid : Nat) (o : Outcome)
    (hm : tid ∉ s.runningTasks) : step s (.complete tid o) = s := by
  simp [step, complete, hm]

theorem step_complete_mem (s : State) (tid : Nat) (o : Outcome)
    (hm : tid ∈ s.runningTasks) :
    step s (.complete tid o) = consumed { s with
      runningTasks := s.runningTasks.erase tid
      futures := fun t => if t = tid then o.settle else s.futures t } := by
  simp [step, complete, hm]

theorem consumed_disposed (s : State) (hd : s.isDisposed = true) :
    consumed s = s := by
  simp [consumed, hd]

theorem consumed_live (s : State) (hd : s.isDisposed = false) :
    consumed s =
      (if 0 < s.queue.length
        then consume { s with running := s.running - 1, size := s.size - 1 }
        else { s with running := s.running - 1, size := s.size - 1 }) := by
  simp [consumed, hd]

theorem Inv_step (s : State) (e : Event) (h : Inv s) : Inv (step s e) := by
  obtain ⟨hc1, hc2, hc3, hc4, hc5, hc6⟩ := h
  cases e with
  | submit =>
    by_cases hd : s.isDisposed
    · rw [step_submit_disposed s hd]
      exact ⟨hc1, hc2, hc3, hc4, hc5, hc6⟩
    · rw [step_submit_live s (by simpa using hd)]
      apply Inv_consume
      refine ⟨?_, hc2, ?_, ?_, ?_, hc6⟩
      · intro _
        obtain ⟨hr, hs⟩ := hc1 (by simpa using hd)
        refine ⟨hr, ?_⟩
        show s.size + 1 = ((s.queue ++ [s.nextId]).length : Int) + s.running
        rw [List.length_append, List.length_singleton, hs]
        push_cast
        ring
      · dsimp only
        rw [← List.append_assoc]
        refine List.pairwise_append.mpr ⟨hc3, List.pairwise_singleton _ _, ?_⟩
        intro a ha b hb
        rw [List.mem_singleton] at hb
        subst hb
        exact hc4 a ha
      · dsimp only
        intro i hi
        rw [← List.append_assoc, List.mem_append] at hi
        rcases hi with hi | hi
        · exact Nat.lt_succ_of_lt (hc4 i hi)
        · rw [List.mem_singleton] at hi
          subst hi
          exact Nat.lt_succ_self _
      · intro hm
        obtain ⟨hr0, hrt, hsl, hf⟩ := hc5 hm
        exact ⟨hr0, hrt, hsl, hf⟩
  | complete tid o =>
    by_cases hmem : tid ∈ s.runningTasks
    · rw [step_complete_mem s tid o hmem]
      have hrtne : s.runningTasks ≠ [] := by
        intro hnil
        rw [hnil] at hmem
        exact List.not_mem_nil tid hmem
      by_cases hd : s.isDisposed
      · have hstep : consumed { s with
            runningTasks := s.runningTasks.erase tid
            futures := fun t => if t = tid then o.settle else s.futures t } =
            { s with
              runningTasks := s.runningTasks.erase tid
              futures := fun t => if t = tid then o.settle else s.futures t } :=
          consumed_disposed _ hd
        rw [hstep]
        refine ⟨?_, hc2, hc3, hc4, ?_, hc6⟩
        · intro hfalse
          have hf : s.isDisposed = false := hfalse
          rw [hd] at hf
          exact absurd hf (by decide)
        · intro hm
          obtain ⟨_, hrt, _, _⟩ := hc5 hm
          exact absurd hrt hrtne
      · have hstep : consumed { s with
            runningTasks := s.runningTasks.erase tid
            futures := fun t => if t = tid then o.settle else s.futures t } =
            (if 0 < s.queue.length
              then consume { s with
                runningTasks := s.runningTasks.erase tid
                futures := fun t => if t = tid then o.settle else s.futures t
                running := s.running - 1
                size := s.size - 1 }
              else { s with
                runningTasks := s.runningTasks.erase tid
                futures := fun t => if t = tid then o.settle else s.futures t
                running := s.running - 1
                size := s.size - 1 }) :=
          consumed_live _ (by simpa using hd)
        rw [hstep]
        obtain ⟨hr, hs⟩ := hc1 (by simpa using hd)
        have hlen : (s.runningTasks.erase tid).length =
            s.runningTasks.length - 1 := List.length_erase_of_mem hmem
        have hlpos : 0 < s.runningTasks.length := List.length_pos.mpr hrtne
        have hinv3 : Inv { s with
            runningTasks := s.runningTasks.erase tid
            futures := fun t => if t = tid then o.settle else s.futures t
            running := s.running - 1
            size := s.size - 1 } := by
          refine ⟨?_, ?_, hc3, hc4, ?_, hc6⟩
          · intro _
            refine ⟨?_, ?_⟩
            · show s.running - 1 = ((s.runningTasks.erase tid).length : Int)
              rw [hlen]
              push_cast [hlpos]
              omega
            · show s.size - 1 = (s.queue.length : Int) + (s.running - 1)
              rw [hs]
              ring
          · intro hm
            have := hc2 hm
            show s.running - 1 ≤ s.maxDegree
            omega
          · intro hm
            obtain ⟨_, hrt, _, _⟩ := hc5 hm
            exact absurd hrt hrtne
        split
        · exact Inv_consume _ hinv3
        · exact hinv3
    · rw [step_complete_not_mem s tid o hmem]
      exact ⟨hc1, hc2, hc3, hc4, hc5, hc6⟩
  | clear =>
    by_cases hd : s.isDisposed
    · rw [step_clear_disposed s (show _ = true from hd)]
      exact ⟨hc1, hc2, hc3, hc4, hc5, hc6⟩
    · rw [step_clear_live s (by simpa using hd)]
      have hsl : List.Sorted (· < ·) s.startLog :=
        hc3.sublist (List.sublist_append_left _ _)
      refine ⟨?_, hc2, ?_, ?_, ?_, hc6⟩
      · intro _
        obtain ⟨hr, _⟩ := hc1 (by simpa using hd)
        refine ⟨hr, ?_⟩
        show s.running = (([] : List Nat).length : Int) + s.running
        simp
      · show List.Sorted (· < ·) (s.startLog ++ [])
        simpa using hsl
      · intro i hi
        have hi' : i ∈ s.startLog ++ ([] : List Nat) := hi
        rw [List.append_nil] at hi'
        exact hc4 i (List.mem_append_left _ hi')
      · intro hm
        obtain ⟨hr0, hrt, hsl2, hf⟩ := hc5 hm
        exact ⟨hr0, hrt, hsl2, hf⟩
  | dispose =>
    rw [step_dispose]
    have hsl : List.Sorted (· < ·) s.startLog :=
      hc3.sublist (List.sublist_append_left _ _)
    refine ⟨?_, hc2, ?_, ?_, ?_, hc6⟩
    · intro hfalse
      have hf : (true : Bool) = false := hfalse
      exact absurd hf (by decide)
    · show List.Sorted (· < ·) (s.startLog ++ [])
      simpa using hsl
    · intro i hi
      have hi' : i ∈ s.startLog ++ ([] : List Nat) := hi
      rw [List.append_nil] at hi'
      exact hc4 i (List.mem_append_left _ hi')
    · intro hm
      obtain ⟨hr0, hrt, hsl2, hf⟩ := hc5 hm
      exact ⟨hr0, hrt, hsl2, hf⟩

theorem Inv_run (s : State) (es : List Event) (h : Inv s) : Inv (run s es) := by
  induction es generalizing s with
  | nil => exact h
  | cons e es ih => exact ih (step s e) (Inv_step s e h)

/-! ### More field-preservation lemmas -/

theorem consumed_maxDegree (s : State) :
    (consumed s).maxDegree = s.maxDegree := by
  by_cases hd : s.isDisposed
  · rw [consumed_disposed s hd]
  · rw [consumed_live s (by simpa using hd)]
    split
    · rw [consume_maxDegree]
    · rfl

theorem consumed_futures (s : State) : (consumed s).futures = s.futures := by
  by_cases hd : s.isDisposed
  · rw [consumed_disposed s hd]
  · rw [consumed_live s (by simpa using hd)]
    split
    · rw [consume_futures]
    · rfl

theorem consumed_size (s : State) (hd : s.isDisposed = false) :
    (consumed s).size = s.size - 1 := by
  rw [consumed_live s hd]
  split
  · rw [consume_size]
  · rfl

theorem step_maxDegree (s : State) (e : Event) :
    (step s e).maxDegree = s.maxDegree := by
  cases e with
  | submit =>
    by_cases hd : s.isDisposed
    · rw [step_submit_disposed s hd]
    · rw [step_submit_live s (by simpa using hd), consume_maxDegree]
  | complete tid o =>
    by_cases hmem : tid ∈ s.runningTasks
    · rw [step_complete_mem s tid o hmem, consumed_maxDegree]
    · rw [step_complete_not_mem s tid o hmem]
  | clear =>
    by_cases hd : s.isDisposed
    · rw [step_clear_disposed s hd]
    · rw [step_clear_live s (by simpa using hd)]
  | dispose => rfl

theorem run_maxDegree (s : State) (es : List Event) :
    (run s es).maxDegree = s.maxDegree := by
  induction es generalizing s with
  | nil => rfl
  | cons e es ih =>
    have hstep : run s (e :: es) = run (step s e) es := rfl
    rw [hstep, ih, step_maxDegree]

/-- `consume` does not read the futures map: replacing it commutes with
the drain loop. -/
theorem consume_set_futures (s : State) (f : Nat → Future) :
    consume { s with futures := f } = { consume s with futures := f } := by
  generalize hn : s.queue.length = n
  induction n using Nat.strong_induction_on generalizing s with
  | _ n ih =>
    rcases hq : s.queue with _ | ⟨tid, rest⟩
    · rw [consume_nil { s with queue := [], futures := f } rfl,
        consume_nil s hq, ← hq]
    · by_cases hr : s.running < s.maxDegree
      · rw [consume_cons_lt { s with queue := tid :: rest, futures := f }
          tid rest rfl hr, consume_cons_lt s tid rest hq hr]
        exact ih rest.length (by rw [hq] at hn; simp at hn; omega)
          { s with
            queue := rest
            running := s.running + 1
            runningTasks := s.runningTasks ++ [tid]
            startLog := s.startLog ++ [tid] } rfl
      · rw [consume_cons_ge { s with queue := tid :: rest, futures := f }
          tid rest rfl hr, consume_cons_ge s tid rest hq hr, ← hq]

/-- `consumed` does not read the futures map either. -/
theorem consumed_set_futures (s : State) (f : Nat → Future) :
    consumed { s with futures := f } = { consumed s with futures := f } := by
  by_cases hd : s.isDisposed
  · have h1 : consumed { s with futures := f } = { s with futures := f } :=
      consumed_disposed _ hd
    rw [h1, consumed_disposed s hd]
  · have h1 : consumed { s with futures := f } =
        (if 0 < s.queue.length
          then consume { s with
            futures := f
            running := s.running - 1
            size := s.size - 1 }
          else { s with
            futures := f
            running := s.running - 1
            size := s.size - 1 }) :=
      consumed_live _ (by simpa using hd)
    rw [h1, consumed_live s (by simpa using hd)]
    by_cases hq : 0 < s.queue.length
    · rw [if_pos hq, if_pos hq]
      exact consume_set_futures
        { s with running := s.running - 1, size := s.size - 1 } f
    · rw [if_neg hq, if_neg hq]

/-- The futures map after a running task completes: the completed task's
future is settled with the task's own outcome, nothing else changes. -/
theorem complete_futures_mem (s : State) (tid : Nat) (o : Outcome)
    (hmem : tid ∈ s.runningTasks) :
    (step s (.complete tid o)).futures =
      fun t => if t = tid then o.settle else s.futures t := by
  rw [step_complete_mem s tid o hmem, consumed_futures]

/-- The state after a running task completes, factored so that the
outcome only enters through the futures map. -/
theorem complete_set_outcome (s : State) (tid : Nat) (o : Outcome)
    (hmem : tid ∈ s.runningTasks) :
    step s (.complete tid o) =
      { consumed { s with runningTasks := s.runningTasks.erase tid } with
        futures := fun t => if t = tid then o.settle else s.futures t } := by
  rw [step_complete_mem s tid o hmem]
  exact consumed_set_futures
    { s with runningTasks := s.runningTasks.erase tid } _

/-! ### The drain-step relation -/

/-- `Drains s t`: `t` results from `s` by the drain loop: the first `k`
queued tasks have been started (appended to `runningTasks` and the start
log, with the running count raised by `k`), the loop had spare capacity
for each of them, and it stopped only with an empty queue or a running
count at the ceiling. -/
def Drains (s t : State) : Prop :=
  ∃ k : Nat,
    t.startLog = s.startLog ++ s.queue.take k ∧
    t.queue = s.queue.drop k ∧
    t.running = s.running + (k : Int) ∧
    t.runningTasks = s.runningTasks ++ s.queue.take k ∧
    (t.queue = [] ∨ ¬ t.running < s.maxDegree) ∧
    (∀ j : Nat, j < k → s.running + (j : Int) < s.maxDegree)

theorem drains_consume (s : State) : Drains s (consume s) := by
  obtain ⟨k, h1, h2, h3, h4, h5, h6, h7, h8, h9, h10, h11, h12, h13, h14⟩ :=
    consume_spec s
  refine ⟨k, h4, h1, h2, h3, ?_, h13⟩
  rw [h1, h2]
  exact h12

theorem drains_refl_of_empty (s : State) (h : s.queue = []) : Drains s s :=
  ⟨0, by simp [h]⟩

theorem consume_eq_self_of_no_capacity (s : State)
    (h : ¬ s.running < s.maxDegree) : consume s = s := by
  rcases hq : s.queue with _ | ⟨tid, rest⟩
  · exact consume_nil s hq
  · exact consume_cons_ge s tid rest hq h

/-- A two-submission run with ceiling 1: task 0 is running, task 1 is
still queued.  Used as the concrete instance for several witnesses. -/
def wState : State := run (init 1) [Event.submit, Event.submit]

example : wState.isDisposed = false := by decide
example : wState.runningTasks = [0] := by decide
example : wState.queue = [1] := by decide
example : wState.running = 1 := by decide
example : wState.size = 2 := by decide
example : wState.startLog = [0] := by decide
example : wState.nextId = 2 := by decide
example : (run (init 2) [Event.submit, Event.submit, Event.submit]).running = 2 := by decide
example : (run (init 0) [Event.submit, Event.submit]).startLog = [] := by decide
example : (run (init 0) [Event.submit, Event.submit]).size = 2 := by decide
example : (run (init 1) [Event.dispose]).isDisposed = true := by decide
example : (step wState (.complete 0 (.failure 7))).futures 0 = .rejected 7 := by decide
example : (step wState (.complete 0 (.failure 7))).futures 1 = .pending := by decide
example : (step wState (.complete 0 (.failure 7))).startLog = [0, 1] := by decide
example :
    (step (step wState (.complete 0 (.failure 7))) (.complete 1 (.success 4))).futures 1
      = .resolved 4 := by decide

/-! ## Claim theorems -/

/-- **C1**: for every `Limiter` constructed with `maxDegreeOfParalellism`
`m ≥ 1` and every sequence of submissions, completions, clears and
disposals, `runningPromises` never exceeds `m`. -/
theorem running_le_maxDegree (m : Int) (tr : List Event) (hm : 1 ≤ m) :
    (run (init m) tr).running ≤ m := by
  obtain ⟨_, hc2, _⟩ := Inv_run (init m) tr (Inv_init m)
  have hmax : (run (init m) tr).maxDegree = m := run_maxDegree (init m) tr
  have hle := hc2 (by rw [hmax]; omega)
  rw [hmax] at hle
  exact hle

theorem running_le_maxDegree_witness :
    (1 : Int) ≤ 2 ∧
      (run (init 2) [Event.submit, Event.submit, Event.submit]).running ≤ 2 :=
  ⟨by decide,
    running_le_maxDegree 2 [Event.submit, Event.submit, Event.submit]
      (by decide)⟩

/-- **C2**: tasks start in submission (FIFO) order.  Ids are assigned in
submission order and `startLog` records tasks in the order they started,
so a strictly increasing `startLog` says exactly that whenever two tasks
both start, the earlier-submitted one starts first. -/
theorem startLog_sorted (m : Int) (tr : List Event) :
    List.Sorted (· < ·) ((run (init m) tr).startLog) := by
  obtain ⟨_, _, hc3, _⟩ := Inv_run (init m) tr (Inv_init m)
  exact hc3.sublist (List.sublist_append_left _ _)

/-- **C3**: the drain step.  `consume` starts head tasks while the running
count is below the ceiling (`Drains s (consume s)`), and when a running
task completes on a live limiter the running count and `_size` are
decremented and the drain step repeats from the decremented state,
stopping only with an empty queue or a full ceiling. -/
theorem drain_step_spec (s : State) (tid : Nat) (o : Outcome)
    (hd : s.isDisposed = false) (hmem : tid ∈ s.runningTasks) :
    Drains s (consume s) ∧
    (step s (.complete tid o)).size = s.size - 1 ∧
    Drains { s with
        runningTasks := s.runningTasks.erase tid
        futures := fun t => if t = tid then o.settle else s.futures t
        running := s.running - 1
        size := s.size - 1 }
      (step s (.complete tid o)) := by
  refine ⟨drains_consume s, ?_, ?_⟩
  · rw [step_complete_mem s tid o hmem]
    exact consumed_size _ hd
  · rw [step_complete_mem s tid o hmem]
    have hstep : consumed { s with
        runningTasks := s.runningTasks.erase tid
        futures := fun t => if t = tid then o.settle else s.futures t } =
        (if 0 < s.queue.length
          then consume { s with
            runningTasks := s.runningTasks.erase tid
            futures := fun t => if t = tid then o.settle else s.futures t
            running := s.running - 1
            size := s.size - 1 }
          else { s with
            runningTasks := s.runningTasks.erase tid
            futures := fun t => if t = tid then o.settle else s.futures t
            running := s.running - 1
            size := s.size - 1 }) :=
      consumed_live _ hd
    rw [hstep]
    by_cases hq : 0 < s.queue.length
    · rw [if_pos hq]
      exact drains_consume _
    · rw [if_neg hq]
      apply drains_refl_of_empty
      show s.queue = []
      have hlen : s.queue.length = 0 := by omega
      exact List.length_eq_zero.mp hlen

/-- **C3**, as literally stated, fails on a disposed limiter: task `0` is
started and still running when `dispose()` is called, and when it then
completes, `consumed()` returns early, so the running count is *not*
decremented (it stays `1` instead of dropping to `0`). -/
theorem drain_step_disposed_counterexample :
    0 ∈ (run (init 1) [Event.submit, Event.dispose]).runningTasks ∧
    (run (init 1) [Event.submit, Event.dispose]).running = 1 ∧
    (step (run (init 1) [Event.submit, Event.dispose])
        (.complete 0 (.success 0))).running = 1 := by decide

theorem drain_step_spec_witness :
    wState.isDisposed = false ∧ 0 ∈ wState.runningTasks ∧
      (Drains wState (consume wState) ∧
        (step wState (.complete 0 (.success 5))).size = wState.size - 1 ∧
        Drains { wState with
            runningTasks := wState.runningTasks.erase 0
            futures := fun t => if t = 0 then (Outcome.success 5).settle
              else wState.futures t
            running := wState.running - 1
            size := wState.size - 1 }
          (step wState (.complete 0 (.success 5)))) :=
  ⟨by decide, by decide,
    drain_step_spec wState 0 (.success 5) (by decide) (by decide)⟩

/-- **C4**: `dispose()` marks the limiter disposed, empties the queue and
zeroes `_size` without touching any returned future, disposes
`_onDrained`, and a later `queue` call throws
`'Object has been disposed'`. -/
theorem dispose_spec (s : State) :
    (dispose s).isDisposed = true ∧
    (dispose s).queue = [] ∧
    (dispose s).size = 0 ∧
    (dispose s).futures = s.futures ∧
    (dispose s).onDrainedDisposed = true ∧
    queueOp (dispose s) = .error "Object has been disposed" :=
  ⟨rfl, rfl, rfl, rfl, rfl, by simp [queueOp, dispose]⟩

/-- **C5**: a task's failure is visible only on its own future.  Completing
running task `tid` with failure `e` rejects exactly `tid`'s future with
`e`, leaves every other future untouched, and drives the limiter (queue,
counters, started tasks, start order, disposal flag) exactly as a success
would; a success resolves the task's future with its value. -/
theorem task_failure_isolated (s : State) (tid : Nat) (e v : Nat)
    (hmem : tid ∈ s.runningTasks) :
    (step s (.complete tid (.failure e))).futures tid = .rejected e ∧
    (step s (.complete tid (.success v))).futures tid = .resolved v ∧
    (∀ u, u ≠ tid →
      (step s (.complete tid (.failure e))).futures u = s.futures u) ∧
    (step s (.complete tid (.failure e))).queue =
      (step s (.complete tid (.success v))).queue ∧
    (step s (.complete tid (.failure e))).running =
      (step s (.complete tid (.success v))).running ∧
    (step s (.complete tid (.failure e))).runningTasks =
      (step s (.complete tid (.success v))).runningTasks ∧
    (step s (.complete tid (.failure e))).startLog =
      (step s (.complete tid (.success v))).startLog ∧
    (step s (.complete tid (.failure e))).size =
      (step s (.complete tid (.success v))).size ∧
    (step s (.complete tid (.failure e))).isDisposed =
      (step s (.complete tid (.success v))).isDisposed := by
  have hf := complete_futures_mem s tid (.failure e) hmem
  have hsc := complete_futures_mem s tid (.success v) hmem
  have hof := complete_set_outcome s tid (.failure e) hmem
  have hos := complete_set_outcome s tid (.success v) hmem
  refine ⟨?_, ?_, ?_, ?_, ?_, ?_, ?_, ?_, ?_⟩
  · rw [hf]; simp [Outcome.settle]
  · rw [hsc]; simp [Outcome.settle]
  · intro u hu
    rw [hf]
    simp [hu]
  · rw [hof, hos]
  · rw [hof, hos]
  · rw [hof, hos]
  · rw [hof, hos]
  · rw [hof, hos]
  · rw [hof, hos]

theorem task_failure_isolated_witness :
    0 ∈ wState.runningTasks ∧
      ((step wState (.complete 0 (.failure 7))).futures 0 = .rejected 7 ∧
        (step wState (.complete 0 (.success 4))).futures 0 = .resolved 4 ∧
        (∀ u, u ≠ 0 →
          (step wState (.complete 0 (.failure 7))).futures u =
            wState.futures u) ∧
        (step wState (.complete 0 (.failure 7))).queue =
          (step wState (.complete 0 (.success 4))).queue ∧
        (step wState (.complete 0 (.failure 7))).running =
          (step wState (.complete 0 (.success 4))).running ∧
        (step wState (.complete 0 (.failure 7))).runningTasks =
          (step wState (.complete 0 (.success 4))).runningTasks ∧
        (step wState (.complete 0 (.failure 7))).startLog =
          (step wState (.complete 0 (.success 4))).startLog ∧
        (step wState (.complete 0 (.failure 7))).size =
          (step wState (.complete 0 (.success 4))).size ∧
        (step wState (.complete 0 (.failure 7))).isDisposed =
          (step wState (.complete 0 (.success 4))).isDisposed) :=
  ⟨by decide, task_failure_isolated wState 0 7 4 (by decide)⟩

/-- **C6**: `clear()` on a live limiter empties the pending queue, settles
no future, and leaves running tasks untouched: the running count, the
started-task set and their futures survive, and a running task completing
afterwards still settles its own future with its own outcome. -/
theorem clear_spec (s : State) (hd : s.isDisposed = false) :
    ∃ s' : State,
      clearOp s = .ok s' ∧
      s'.queue = [] ∧
      s'.futures = s.futures ∧
      s'.running = s.running ∧
      s'.runningTasks = s.runningTasks ∧
      s'.startLog = s.startLog ∧
      s'.size = s.running ∧
      (∀ tid o, tid ∈ s'.runningTasks →
        (step s' (.complete tid o)).futures tid = o.settle) := by
  refine ⟨{ s with queue := [], size := s.running },
    ?_, rfl, rfl, rfl, rfl, rfl, rfl, ?_⟩
  · simp [clearOp, hd]
  · intro tid o hmem
    rw [complete_futures_mem _ tid o hmem]
    simp

theorem clear_spec_witness :
    wState.isDisposed = false ∧
      (∃ s' : State,
        clearOp wState = .ok s' ∧
        s'.queue = [] ∧
        s'.futures = wState.futures ∧
        s'.running = wState.running ∧
        s'.runningTasks = wState.runningTasks ∧
        s'.startLog = wState.startLog ∧
        s'.size = wState.running ∧
        (∀ tid o, tid ∈ s'.runningTasks →
          (step s' (.complete tid o)).futures tid = o.settle)) :=
  ⟨by decide, clear_spec wState (by decide)⟩

/-- **C7**: on a live limiter, the `size` getter counts the tasks
submitted but not yet completed: the queued ones plus the running ones. -/
theorem size_counts_pending (m : Int) (tr : List Event)
    (hd : (run (init m) tr).isDisposed = false) :
    (run (init m) tr).size =
      ((run (init m) tr).queue.length : Int) +
        ((run (init m) tr).runningTasks.length : Int) := by
  obtain ⟨hc1, _⟩ := Inv_run (init m) tr (Inv_init m)
  obtain ⟨hr, hs⟩ := hc1 hd
  rw [hs, hr]

theorem size_counts_pending_witness :
    (run (init 1) [Event.submit, Event.submit, Event.submit]).isDisposed
        = false ∧
      (run (init 1) [Event.submit, Event.submit, Event.submit]).size =
        (((run (init 1) [Event.submit, Event.submit, Event.submit]).queue.length
            : Int) +
          (((run (init 1)
              [Event.submit, Event.submit, Event.submit]).runningTasks.length
            : Int))) :=
  ⟨by decide,
    size_counts_pending 1 [Event.submit, Event.submit, Event.submit]
      (by decide)⟩

/-- **C8**: the `_onDrained` emitter never fires: the `fire` call in
`consumed` is commented out in the source, so no execution ever emits the
event, whatever the trace. -/
theorem onDrained_never_fires (m : Int) (tr : List Event) :
    (run (init m) tr).drainedFired = false := by
  obtain ⟨_, _, _, _, _, hc6⟩ := Inv_run (init m) tr (Inv_init m)
  exact hc6

/-- **C9**: `clear()` on a disposed limiter throws
`'Object has been disposed'` instead of being a no-op. -/
theorem clear_after_dispose_throws (s : State) (hd : s.isDisposed = true) :
    clearOp s = .error "Object has been disposed" := by
  simp [clearOp, hd]

theorem clear_after_dispose_throws_witness :
    (run (init 1) [Event.dispose]).isDisposed = true ∧
      clearOp (run (init 1) [Event.dispose]) =
        .error "Object has been disposed" :=
  ⟨by decide, clear_after_dispose_throws (run (init 1) [Event.dispose])
    (by decide)⟩

/-- **C10**: the constructor does not validate the ceiling.  With
`maxDegreeOfParalellism ≤ 0` no task ever starts, the running count stays
`0`, every returned future stays pending forever, and yet a `queue` call
on the live limiter is still accepted and increments `size` (again
starting nothing). -/
theorem nonpositive_max_never_starts (m : Int) (tr : List Event)
    (hm : m ≤ 0) :
    (run (init m) tr).startLog = [] ∧
    (run (init m) tr).runningTasks = [] ∧
    (run (init m) tr).running = 0 ∧
    (run (init m) tr).futures = (fun _ => Future.pending) ∧
    ((run (init m) tr).isDisposed = false →
      ∃ s' : State,
        queueOp (run (init m) tr) = .ok (s', (run (init m) tr).nextId) ∧
        s'.size = (run (init m) tr).size + 1 ∧
        s'.running = 0 ∧
        s'.startLog = []) := by
  obtain ⟨_, _, _, _, hc5, _⟩ := Inv_run (init m) tr (Inv_init m)
  have hmax : (run (init m) tr).maxDegree = m := run_maxDegree (init m) tr
  obtain ⟨hr0, hrt, hsl, hfut⟩ := hc5 (by rw [hmax]; exact hm)
  refine ⟨hsl, hrt, hr0, hfut, ?_⟩
  intro hd
  have hnc : ¬ ({ run (init m) tr with
      size := (run (init m) tr).size + 1
      queue := (run (init m) tr).queue ++ [(run (init m) tr).nextId]
      nextId := (run (init m) tr).nextId + 1 } : State).running <
      ({ run (init m) tr with
      size := (run (init m) tr).size + 1
      queue := (run (init m) tr).queue ++ [(run (init m) tr).nextId]
      nextId := (run (init m) tr).nextId + 1 } : State).maxDegree := by
    show ¬ (run (init m) tr).running < (run (init m) tr).maxDegree
    rw [hr0, hmax]
    omega
  have hcons := consume_eq_self_of_no_capacity _ hnc
  refine ⟨{ run (init m) tr with
      size := (run (init m) tr).size + 1
      queue := (run (init m) tr).queue ++ [(run (init m) tr).nextId]
      nextId := (run (init m) tr).nextId + 1 }, ?_, rfl, hr0, hsl⟩
  have hq : queueOp (run (init m) tr) = .ok (consume { run (init m) tr with
      size := (run (init m) tr).size + 1
      queue := (run (init m) tr).queue ++ [(run (init m) tr).nextId]
      nextId := (run (init m) tr).nextId + 1 }, (run (init m) tr).nextId) := by
    simp [queueOp, hd]
  rw [hq, hcons]

theorem nonpositive_max_never_starts_witness :
    (0 : Int) ≤ 0 ∧
      ((run (init 0) [Event.submit, Event.submit]).startLog = [] ∧
        (run (init 0) [Event.submit, Event.submit]).runningTasks = [] ∧
        (run (init 0) [Event.submit, Event.submit]).running = 0 ∧
        (run (init 0) [Event.submit, Event.submit]).futures =
          (fun _ => Future.pending) ∧
        ((run (init 0) [Event.submit, Event.submit]).isDisposed = false →
          ∃ s' : State,
            queueOp (run (init 0) [Event.submit, Event.submit]) =
              .ok (s', (run (init 0) [Event.submit, Event.submit]).nextId) ∧
            s'.size = (run (init 0) [Event.submit, Event.submit]).size + 1 ∧
            s'.running = 0 ∧
            s'.startLog = [])) :=
  ⟨by decide, nonpositive_max_never_starts 0 [Event.submit, Event.submit]
    (by decide)⟩

end Limiter
